import Mathlib

/-!
Verification of the proposal-governance system (DDS execution engine,
sequential scheduler, failure-to-fix pipeline, contract dispatch layer).

The definitions below are a shallow embedding of the Python sources:
  node_programmer/programmer.py  (execution engine)
  node_scheduler/scheduler.py    (sequential scheduler)
  node_worker/failure_analyzer.py, fix_dds_generator.py, reactive_worker.py
  node_interface/contract.py, router.py
  node_dds/dds_registry.py, dds_proposal.py

Modelling conventions:
  - JSON files become in-memory lists: dds.json is a list of proposals,
    reports.json is an append-only list of execution reports.
  - Python dict fields that may be absent become Option fields; fields the
    code always materialises with a default (id, project, title, description,
    created_at, status in DDSProposal.from_dict) are plain String fields.
  - The filesystem is modelled symlink-free: a set of existing absolute
    paths (lists of components), and Path.resolve is lexical normalisation.
  - The external tool subprocess (run_aider) is an opaque environment input:
    the engine records only whether it was invoked, and the post-run diff
    (created / modified / deleted path lists) is supplied by the environment,
    matching the fact that the source ignores the run_aider return value and
    recomputes everything from the diff.
  - Wall-clock timestamps are environment inputs.
-/

namespace AiSystem

/-! ### String helpers (substring search, blank test, lowercase) -/

/-- Boolean substring containment on character lists: does `needle` occur as a
contiguous infix of `hay`?  Mirrors the Python `in` operator on str. -/
def listContains (needle : List Char) : List Char → Bool
  | [] => needle.isEmpty
  | c :: rest => needle.isPrefixOf (c :: rest) || listContains needle rest

/-- Boolean substring test on strings: `substrB needle hay` is the Python
expression `needle in hay`. -/
def substrB (needle hay : String) : Bool :=
  listContains needle.toList hay.toList

/-- Lowercase conversion, character by character (str.lower of the source,
restricted to the character-wise mapping). -/
def lowerStr (s : String) : String :=
  String.mk (s.toList.map Char.toLower)

/-- Whether a string is empty or all whitespace; mirrors the Python test
`not s.strip()` (restricted to ASCII whitespace). -/
def isBlankStr (s : String) : Bool :=
  s.toList.all (fun c => c == ' ' || c == '\t' || c == '\n' || c == '\r')

/-! ### Path model

A path literal from a DDS `allowed_paths` entry is either absolute or
relative, with its components already split on the separator.  The
filesystem is a list of existing absolute normalised paths.  `Path.resolve`
is modelled as lexical normalisation: `..` pops one component and is
absorbed at the filesystem root (as in POSIX realpath without symlinks);
`.` and empty components are dropped. -/

structure PathSpec where
  isAbs : Bool
  comps : List String
deriving DecidableEq, Repr

/-- Lexical normalisation of an absolute component list (stack semantics of
Path.resolve on a symlink-free tree). -/
def normComps (l : List String) : List String :=
  l.foldl
    (fun acc c =>
      if c = ".." then acc.dropLast
      else if c = "." ∨ c = "" then acc
      else acc ++ [c])
    []

/-- Resolution of `workspace_path / entry` followed by `.resolve()`:
an absolute entry replaces the workspace root (pathlib `/` semantics),
a relative entry is appended to it. -/
def resolveUnder (wsRoot : List String) (p : PathSpec) : List String :=
  if p.isAbs then normComps p.comps else normComps (wsRoot ++ p.comps)

/-- Existence on the modelled filesystem, after resolution. -/
def pathExists (fs : List (List String)) (p : List String) : Bool :=
  fs.any (fun q => q == p)

/-- The check `resolved.relative_to(workspace)` succeeds exactly when the
workspace components form a prefix of the resolved components. -/
def isInsideWs (wsRoot resolved : List String) : Bool :=
  wsRoot.isPrefixOf resolved

/-- Whether an allowed-path entry contains a `..` component (the path
traversal marker the specification talks about). -/
def specHasDotDot (p : PathSpec) : Bool :=
  p.comps.contains ".."

/-! ### Data model: execution reports, constraints, proposals -/

/-- ExecutionReport (node_programmer/execution_report.py): append-only record
of one execution attempt. -/
structure Report where
  ddsId : String
  actionType : String
  status : String
  executedAt : String
  notes : String
deriving DecidableEq, Repr

/-- The `last_execution` record written onto a proposal by
Programmer._mark_dds_executed. -/
structure LastExec where
  status : String
  executedAt : String
  notes : String
deriving DecidableEq, Repr

/-- Constraints record of a proposal.  The Python dict may carry
`max_files_changed` or the legacy key `max_files`; the two boolean limits
default to False when absent (dict.get with default). -/
structure Constraints where
  maxFilesChanged : Option Nat := none
  maxFiles : Option Nat := none
  noNewDependencies : Bool := false
  noRefactor : Bool := false
deriving DecidableEq, Repr

/-- The `error_context` record attached to generated fix proposals. -/
structure ErrorContext where
  originalDds : String
  errorMessage : String
  failedAt : String
deriving DecidableEq, Repr

/-- Proposal record (one entry of dds.json / DDSProposal).  Fields that
DDSProposal.from_dict always defaults are plain strings; genuinely optional
fields are Options.  `ddsType` embeds the JSON key `type`. -/
structure Proposal where
  id : String
  project : String := "unknown"
  title : String := "untitled"
  description : String := ""
  createdAt : String := ""
  status : String := "unknown"
  version : Option Nat := none
  goal : Option String := none
  instructions : Option (List String) := none
  tool : Option String := none
  ddsType : Option String := none
  sourceDds : Option String := none
  errorContext : Option ErrorContext := none
  constraints : Option Constraints := none
  allowedPaths : Option (List PathSpec) := none
  lastExecution : Option LastExec := none
deriving DecidableEq, Repr

/-- Persistent state shared by the engine, the scheduler and the worker:
the proposal store (dds.json) and the execution report log (reports.json). -/
structure SysState where
  proposals : List Proposal
  reports : List Report
deriving DecidableEq, Repr

/-! ### Execution engine (Programmer.execute_code_change) -/

/-- Programmer._check_already_executed: the first proposal with this id has a
`last_execution` record with status success. -/
def checkAlreadyExecuted (st : SysState) (ddsId : String) : Bool :=
  match st.proposals.find? (fun p => p.id == ddsId) with
  | some p =>
      match p.lastExecution with
      | some le => le.status == "success"
      | none => false
  | none => false

/-- Programmer._is_already_executed: any report in reports.json carries this
dds id (regardless of its outcome). -/
def isAlreadyExecuted (st : SysState) (ddsId : String) : Bool :=
  st.reports.any (fun r => r.ddsId == ddsId)

/-- Appending an execution report to reports.json
(Programmer._save_execution_report / _save_report). -/
def saveReport (st : SysState) (r : Report) : SysState :=
  { st with reports := st.reports ++ [r] }

/-- Setting the `last_execution` record on the first proposal with the given
id (Programmer._mark_dds_executed loops and breaks on the first match; a
missing id leaves the file untouched). -/
def setLastExecFirst : List Proposal → String → LastExec → List Proposal
  | [], _, _ => []
  | p :: ps, i, le =>
      if p.id == i then { p with lastExecution := some le } :: ps
      else p :: setLastExecFirst ps i le

/-- Programmer._mark_dds_executed. -/
def markDdsExecuted (st : SysState) (ddsId status time notes : String) : SysState :=
  { st with proposals := setLastExecFirst st.proposals ddsId ⟨status, time, notes⟩ }

/-- Rendering of an optional number for error messages (Python prints None
for a missing key). -/
def optNatStr : Option Nat → String
  | some n => toString n
  | none => "None"

def optStrStr : Option String → String
  | some s => s
  | none => "None"

/-- Programmer._validate_dds_v2, checks in source order with the source error
messages (quotes dropped).  An empty goal string and a whitespace goal both
fail, as with the Python truthiness plus strip test; an absent or empty
constraints dict is `none`. -/
def validateDdsV2 (dds : Proposal) : Except String Unit := do
  if dds.version ≠ some 2 then
    throw ("Invalid version: expected 2, got " ++ optNatStr dds.version)
  if dds.ddsType ≠ some "code_change" then
    throw ("Invalid type: expected code_change, got " ++ optStrStr dds.ddsType)
  if dds.project = "" then
    throw "Missing required field: project"
  match dds.goal with
  | none => throw "Missing or invalid required field: goal (must be non-empty string)"
  | some g =>
      if isBlankStr g then
        throw "Missing or invalid required field: goal (must be non-empty string)"
  match dds.instructions with
  | none => throw "Missing or invalid required field: instructions (must be non-empty list)"
  | some l =>
      if l.isEmpty then
        throw "Missing or invalid required field: instructions (must be non-empty list)"
  match dds.allowedPaths with
  | none => throw "Missing or invalid required field: allowed_paths (must be non-empty list)"
  | some l =>
      if l.isEmpty then
        throw "Missing or invalid required field: allowed_paths (must be non-empty list)"
  if dds.tool ≠ some "aider" then
    throw ("Invalid tool: expected aider, got " ++ optStrStr dds.tool)
  if dds.constraints = none then
    throw "Missing or invalid required field: constraints (must be dict)"
  if dds.status ≠ "approved" then
    throw ("DDS not approved: status is " ++ dds.status)
  pure ()

/-- Programmer._build_aider_prompt: re-checks goal / instructions /
constraints and assembles the natural-language instruction document.  The
fixed rule block matches the source text. -/
def buildAiderPrompt (dds : Proposal) : Except String String := do
  let goal ←
    match dds.goal with
    | some g => if g = "" then throw "Cannot build prompt: missing goal" else pure g
    | none => throw "Cannot build prompt: missing goal"
  let instructions ←
    match dds.instructions with
    | some l => if l.isEmpty then throw "Cannot build prompt: missing or invalid instructions" else pure l
    | none => throw "Cannot build prompt: missing or invalid instructions"
  let cs ←
    match dds.constraints with
    | some c => pure c
    | none => throw "Cannot build prompt: missing or invalid constraints"
  let maxFiles :=
    match cs.maxFilesChanged, cs.maxFiles with
    | some n, _ => toString n
    | none, some n => toString n
    | none, none => "not specified"
  let lines : List String :=
    ["GOAL:", goal, ""] ++
    ["INSTRUCTIONS:"] ++ instructions.map (fun i => "- " ++ i) ++ [""] ++
    ["CONSTRAINTS:",
     "- Max files changed: " ++ maxFiles,
     "- No new dependencies: " ++ (if cs.noNewDependencies then "true" else "false"),
     "- No refactor: " ++ (if cs.noRefactor then "true" else "false"),
     ""] ++
    ["RULES:",
     "- Only modify files in allowed paths",
     "- Do not commit changes",
     "- Stop after completing instructions"]
  pure (String.intercalate "\n" lines)

/-- Recognised dependency-manifest filenames used by the
no-new-dependencies constraint check. -/
def dependencyFiles : List String :=
  ["package.json", "requirements.txt", "Pipfile", "pyproject.toml", "Cargo.toml", "go.mod"]

/-- Programmer._validate_constraints: violations collected against the
observed created and modified path lists; returns (constraints_ok,
violations). -/
def validateConstraints (dds : Proposal) (created modified : List String) :
    Bool × List String :=
  let cs := dds.constraints.getD {}
  let totalChanged := created.length + modified.length
  let v1 : List String :=
    match cs.maxFilesChanged, cs.maxFiles with
    | some m, _ =>
        if totalChanged > m then
          ["Max files changed exceeded: " ++ toString totalChanged ++ " > " ++ toString m]
        else []
    | none, some m =>
        if totalChanged > m then
          ["Max files changed exceeded: " ++ toString totalChanged ++ " > " ++ toString m]
        else []
    | none, none => []
  let v2 : List String :=
    if cs.noNewDependencies then
      ((created ++ modified).filter
        (fun f => dependencyFiles.any (fun d => substrB d f))).map
        (fun f => "Dependency file modified: " ++ f)
    else []
  let v3 : List String :=
    if cs.noRefactor ∧ totalChanged > 3 then
      ["Possible refactoring detected: " ++ toString totalChanged ++ " files changed"]
    else []
  let violations := v1 ++ v2 ++ v3
  (violations.isEmpty, violations)

/-- The scoped-workspace construction loop of execute_code_change
(PHASE 4): for each allowed path, in order, the copied tree must contain it
and its resolution must stay inside the workspace root; the first offending
entry aborts with the corresponding ProgrammerError message. -/
def scopedCopyCheck (fs : List (List String)) (wsRoot : List String) :
    List PathSpec → Except String Unit
  | [] => .ok ()
  | e :: rest =>
      if ¬ pathExists fs (resolveUnder wsRoot e) then
        .error "Allowed path does not exist in workspace"
      else if ¬ isInsideWs wsRoot (resolveUnder wsRoot e) then
        .error "Allowed path escapes workspace"
      else scopedCopyCheck fs wsRoot rest

/-- Environment of one execute_code_change call: wall clock, whether the
project source tree resolved, an optional OS-level exception during
workspace materialisation (the generic `except Exception` path), the
filesystem of the copied workspace, and the diff observed after the tool
ran. -/
structure ExecEnv where
  now : String := ""
  projectFound : Bool := true
  unexpectedError : Option String := none
  wsRoot : List String := []
  fs : List (List String) := []
  created : List String := []
  modified : List String := []
  deleted : List String := []
deriving Repr

/-- Result of one execute_code_change call: final persistent state, the
returned report or raised ProgrammerError message, and whether run_aider
was invoked. -/
structure ExecResult where
  state : SysState
  result : Except String Report
  aiderInvoked : Bool
deriving Repr

/-- Lookup of the target among the approved proposals
(Programmer._get_approved_dds followed by the first-match loop of
execute_code_change). -/
def findApproved (st : SysState) (ddsId : String) : Option Proposal :=
  (st.proposals.filter (fun p => p.status == "approved")).find? (fun p => p.id == ddsId)

/-- The `except ProgrammerError` handler of execute_code_change: persist a
failed report, write the failed outcome onto the proposal, re-raise the
original message. -/
def execCatchProgrammer (st : SysState) (env : ExecEnv) (ddsId e : String) : ExecResult :=
  let notes := "Execution failed: " ++ e
  let rep : Report := ⟨ddsId, "code_change", "failed", env.now, notes⟩
  let st := saveReport st rep
  let st := markDdsExecuted st ddsId "failed" env.now notes
  ⟨st, .error e, false⟩

/-- The generic `except Exception` handler of execute_code_change: persist a
failed report, mark the proposal, raise a wrapped ProgrammerError. -/
def execCatchUnexpected (st : SysState) (env : ExecEnv) (ddsId e : String) : ExecResult :=
  let notes := "Workspace creation failed: " ++ e
  let rep : Report := ⟨ddsId, "code_change", "failed", env.now, notes⟩
  let st := saveReport st rep
  let st := markDdsExecuted st ddsId "failed" env.now notes
  ⟨st, .error notes, false⟩

/-- Programmer.execute_code_change.  Phases follow the source: the two
idempotency guards, the approved lookup, structural validation, workspace
materialisation, the scoped-copy validation loop, prompt construction, the
run_aider call, diff analysis and constraint validation, report persistence
and last-execution write-back.  The NotImplementedError branch of the
source is unreachable because run_aider catches every exception and returns
a result dict, so it is not modelled. -/
def execCodeChange (st : SysState) (env : ExecEnv) (ddsId : String) : ExecResult :=
  if checkAlreadyExecuted st ddsId then
    let msg := "DDS already executed successfully: " ++ ddsId
    let rep : Report := ⟨ddsId, "code_change", "failed", env.now, msg⟩
    ⟨saveReport st rep, .error msg, false⟩
  else if isAlreadyExecuted st ddsId then
    ⟨st, .error ("DDS " ++ ddsId ++ " has already been executed"), false⟩
  else
    match findApproved st ddsId with
    | none => ⟨st, .error ("DDS " ++ ddsId ++ " not found or not approved"), false⟩
    | some dds =>
      match validateDdsV2 dds with
      | .error e => execCatchProgrammer st env ddsId e
      | .ok _ =>
        if ¬ env.projectFound then
          execCatchProgrammer st env ddsId ("Project source not found: " ++ dds.project)
        else
          match env.unexpectedError with
          | some ex => execCatchUnexpected st env ddsId ex
          | none =>
            match scopedCopyCheck env.fs env.wsRoot (dds.allowedPaths.getD []) with
            | .error e => execCatchProgrammer st env ddsId e
            | .ok _ =>
              match buildAiderPrompt dds with
              | .error e => execCatchProgrammer st env ddsId e
              | .ok _prompt =>
                -- run_aider is invoked here; its return value is unused by
                -- the source, which recomputes everything from the diff.
                let created := env.created
                let modified := env.modified
                let allChanged := created ++ modified
                let cv := validateConstraints dds created modified
                let constraintsOk := cv.1
                let violations := cv.2
                let status :=
                  if constraintsOk ∧ allChanged.length > 0 then "success"
                  else if ¬ constraintsOk then "failed"
                  else "success"
                let notes :=
                  if constraintsOk ∧ allChanged.length > 0 then
                    "Execution completed. Files changed: " ++ toString allChanged.length ++
                      " (" ++ toString created.length ++ " created, " ++
                      toString modified.length ++ " modified). Constraints: OK."
                  else if ¬ constraintsOk then
                    "Constraint violations: " ++ String.intercalate ", " violations ++
                      ". Files changed: " ++ toString allChanged.length
                  else "Execution completed. No files changed."
                let rep : Report := ⟨ddsId, "code_change", status, env.now, notes⟩
                let st := saveReport st rep
                let st := markDdsExecuted st ddsId status env.now notes
                ⟨st, .ok rep, true⟩

/-! ### Scheduler (node_scheduler/scheduler.py) -/

/-- The DDSRegistry round trip (from_dict then to_dict) performed by every
registry save: all fields survive except `last_execution`, which
DDSProposal does not carry and which is therefore dropped from the file. -/
def clearLastExec (p : Proposal) : Proposal :=
  { p with lastExecution := none }

/-- Setting the status of the first proposal with the given id
(Scheduler._mark_executed / _mark_failed loop with break). -/
def setStatusFirst : List Proposal → String → String → List Proposal
  | [], _, _ => []
  | p :: ps, i, s =>
      if p.id == i then { p with status := s } :: ps
      else p :: setStatusFirst ps i s

/-- Scheduler._mark_executed / _mark_failed: reload through the registry
(dropping every last_execution record), set the status of the target, and
rewrite the store. -/
def registrySetStatus (st : SysState) (ddsId s : String) : SysState :=
  { st with proposals := setStatusFirst (st.proposals.map clearLastExec) ddsId s }

/-- Strict lexicographic order on character lists by code point, the order
Python uses to compare strings. -/
def charListLt : List Char → List Char → Bool
  | [], [] => false
  | [], _ :: _ => true
  | _ :: _, [] => false
  | a :: as, b :: bs =>
      if a < b then true
      else if b < a then false
      else charListLt as bs

/-- Strict lexicographic order on strings by code point. -/
def strLtB (s t : String) : Bool :=
  charListLt s.toList t.toList

/-- Stable insertion into an id-sorted proposal list: the new element goes
before the first strictly larger id (equivalently, after every id not
larger than it), which reproduces the stable ascending list.sort. -/
def insertById (p : Proposal) : List Proposal → List Proposal
  | [] => [p]
  | q :: qs => if strLtB q.id p.id then q :: insertById p qs else p :: q :: qs

/-- Stable ascending sort by id (list.sort with key id). -/
def sortById (l : List Proposal) : List Proposal :=
  l.foldr insertById []

/-- Scheduler._get_approved_dds: the approved proposals in ascending id
order. -/
def approvedSorted (st : SysState) : List Proposal :=
  sortById (st.proposals.filter (fun p => p.status == "approved"))

/-- Summary dict returned by Scheduler.run. -/
structure SchedSummary where
  status : String
  executed : Nat
  failed : Nat
  failedDds : Option String := none
  message : String
deriving DecidableEq, Repr

/-- The body of the Scheduler.run loop.  `cnt` is the executed count so far
and also indexes the per-call environments.  A non-success report or a
ProgrammerError marks the proposal failed and stops immediately. -/
def schedulerLoop (envs : Nat → ExecEnv) : List String → SysState → Nat → SysState × SchedSummary
  | [], st, cnt =>
      (st, ⟨"completed", cnt, 0, none, "All approved DDS executed successfully"⟩)
  | i :: rest, st, cnt =>
      match (execCodeChange st (envs cnt) i).result with
      | .ok rep =>
          if rep.status == "success" then
            schedulerLoop envs rest
              (registrySetStatus (execCodeChange st (envs cnt) i).state i "executed") (cnt + 1)
          else
            (registrySetStatus (execCodeChange st (envs cnt) i).state i "failed",
             ⟨"stopped_on_error", cnt, 1, some i, "Stopped after failure: " ++ i⟩)
      | .error e =>
          (registrySetStatus (execCodeChange st (envs cnt) i).state i "failed",
           ⟨"stopped_on_error", cnt, 1, some i, "Stopped after error: " ++ e⟩)

/-- Scheduler.run. -/
def schedulerRun (envs : Nat → ExecEnv) (st : SysState) : SysState × SchedSummary :=
  let appr := approvedSorted st
  if appr.isEmpty then
    (st, ⟨"completed", 0, 0, none, "No approved DDS found"⟩)
  else
    schedulerLoop envs (appr.map Proposal.id) st 0

/-- Status of the first proposal carrying an id in a proposal list. -/
def statusOfP (ps : List Proposal) (ddsId : String) : Option String :=
  (ps.find? (fun p => p.id == ddsId)).map Proposal.status

/-- Status of the first proposal carrying an id, as a reader would see the
store. -/
def statusOf (st : SysState) (ddsId : String) : Option String :=
  statusOfP st.proposals ddsId

/-- All reports logged for one dds id, in append order. -/
def reportsFor (st : SysState) (ddsId : String) : List Report :=
  st.reports.filter (fun r => r.ddsId == ddsId)

/-- Whether one engine call at this state counts as a success for the
scheduler: a returned report whose outcome is success. -/
def stepOk (env : ExecEnv) (st : SysState) (ddsId : String) : Bool :=
  match (execCodeChange st env ddsId).result with
  | .ok rep => rep.status == "success"
  | .error _ => false

/-- State transition of one successful scheduler iteration. -/
def stepAsSuccess (env : ExecEnv) (st : SysState) (ddsId : String) : SysState :=
  registrySetStatus (execCodeChange st env ddsId).state ddsId "executed"

/-- The state the scheduler loop holds before iteration `n`, assuming the
first `n` iterations succeeded (used to phrase hypotheses about which
iteration fails). -/
def loopStateBefore (envs : Nat → ExecEnv) : List String → SysState → Nat → Nat → SysState
  | _, st, _, 0 => st
  | [], st, _, _ + 1 => st
  | i :: rest, st, cnt, n + 1 =>
      loopStateBefore envs rest (stepAsSuccess (envs cnt) st i) (cnt + 1) n

/-! ### Failure analyzer (node_worker/failure_analyzer.py) -/

/-- Error patterns that indicate environment / infrastructure issues, not
fixable by a code_fix. -/
def unfixablePatterns : List String :=
  ["timeout", "timed out", "rate limit", "connection refused", "503",
   "command not found", "aider: not found"]

/-- FailureAnalyzer._is_unfixable_error. -/
def isUnfixableError (errorMessage : String) : Bool :=
  unfixablePatterns.any (fun pat => substrB pat (lowerStr errorMessage))

/-- The record returned by FailureAnalyzer.get_latest_failure. -/
structure FailureInfo where
  ddsId : String
  errorMessage : String
  failedAt : String
  actionType : String
deriving DecidableEq, Repr

/-- The backwards scan of get_latest_failure over the reversed execution
list: skip non-failed entries, non-remediable action types, already
processed ids, and unfixable error messages. -/
def latestFailureScan (processed : List String) : List Report → Option FailureInfo
  | [] => none
  | e :: rest =>
      if e.status ≠ "failed" then latestFailureScan processed rest
      else if e.actionType ≠ "code_change" ∧ e.actionType ≠ "code_fix" then
        latestFailureScan processed rest
      else if processed.contains e.ddsId then latestFailureScan processed rest
      else if isUnfixableError e.notes then latestFailureScan processed rest
      else some ⟨e.ddsId, e.notes, e.executedAt, e.actionType⟩

/-- FailureAnalyzer.get_latest_failure (executed_at is always present in
persisted reports, so the datetime.now fallback of the source never
fires). -/
def getLatestFailure (reports : List Report) (processed : List String) : Option FailureInfo :=
  latestFailureScan processed reports.reverse

/-! ### Fix generator (node_worker/fix_dds_generator.py) -/

/-- Components of a datetime.now() reading. -/
structure DateTime where
  year : Nat
  month : Nat
  day : Nat
  hour : Nat
  minute : Nat
  second : Nat
  micro : Nat
deriving DecidableEq, Repr

/-- Zero-padded two-digit rendering (strftime field). -/
def pad2 (n : Nat) : String :=
  if n < 10 then "0" ++ toString n else toString n

/-- Zero-padded four-digit rendering (strftime %Y). -/
def pad4 (n : Nat) : String :=
  if n < 10 then "000" ++ toString n
  else if n < 100 then "00" ++ toString n
  else if n < 1000 then "0" ++ toString n
  else toString n

/-- strftime with format %Y%m%d-%H%M%S: second resolution, the microsecond
field is not rendered. -/
def fmtSecondsDashed (t : DateTime) : String :=
  pad4 t.year ++ pad2 t.month ++ pad2 t.day ++ "-" ++
    pad2 t.hour ++ pad2 t.minute ++ pad2 t.second

/-- The id FixDDSGenerator.generate_fix_dds assigns to a new fix proposal. -/
def fixIdOf (t : DateTime) : String :=
  "DDS-FIX-" ++ fmtSecondsDashed t

/-- FixDDSGenerator._sanitize_error: truncate to 500 characters, drop null
bytes, normalise carriage returns to newlines. -/
def sanitizeError (msg : String) : String :=
  String.mk (((msg.toList.take 500).filter (fun c => c ≠ '\x00')).map
    (fun c => if c = '\r' then '\n' else c))

/-- First line of a message, truncated to 100 characters
(error_message.split of newline, first item, then slice). -/
def errorSummaryOf (msg : String) : String :=
  String.mk ((msg.toList.takeWhile (fun c => c ≠ '\n')).take 100)

/-- FixDDSGenerator._generate_instructions: the fixed four-step template
referencing the truncated error. -/
def generateInstructions (_originalGoal errorMessage : String) : List String :=
  ["Analyze error: " ++ errorSummaryOf errorMessage,
   "Identify root cause in affected files",
   "Apply minimal fix to resolve error",
   "Verify fix doesn\x27t break existing tests"]

/-- The dict returned by generate_fix_dds (all keys present, before the
worker converts it into a stored proposal). -/
structure FixDds where
  id : String
  version : Nat
  ddsType : String
  project : String
  goal : String
  instructions : List String
  allowedPaths : List PathSpec
  tool : String
  constraints : Constraints
  status : String
  sourceDds : String
  errorContext : ErrorContext
deriving DecidableEq, Repr

/-- The default allowed paths generate_fix_dds falls back to when the failed
proposal carries none (the literals src/ and tests/). -/
def fixDefaultAllowedPaths : List PathSpec :=
  [⟨false, ["src"]⟩, ⟨false, ["tests"]⟩]

/-- FixDDSGenerator.generate_fix_dds: pure transform of the failed proposal
and the failure record at one clock reading.  Constraint restriction reads
only the max_files_changed key (default 5) and caps it at the hard ceiling
3; both boolean limits are forced on. -/
def generateFixDds (t : DateTime) (failedDds : Proposal) (failureInfo : FailureInfo) : FixDds :=
  let errorMessage := sanitizeError failureInfo.errorMessage
  let originalConstraints := failedDds.constraints.getD {}
  { id := fixIdOf t
    version := 2
    ddsType := "code_fix"
    project := failedDds.project
    goal := "Fix execution failure in " ++ failureInfo.ddsId ++ ": " ++
      String.mk (errorMessage.toList.take 100)
    instructions := generateInstructions failedDds.title errorMessage
    allowedPaths := failedDds.allowedPaths.getD fixDefaultAllowedPaths
    tool := failedDds.tool.getD "aider"
    constraints :=
      { maxFilesChanged := some (min (originalConstraints.maxFilesChanged.getD 5) 3)
        maxFiles := none
        noNewDependencies := true
        noRefactor := true }
    status := "proposed"
    sourceDds := failureInfo.ddsId
    errorContext := ⟨failureInfo.ddsId, errorMessage, failureInfo.failedAt⟩ }

/-! ### Reactive worker (node_worker/reactive_worker.py) -/

/-- Persistent and in-memory state the worker touches: the proposal store,
the report log, and the analyzer processed set. -/
structure WorkerState where
  proposals : List Proposal
  reports : List Report
  processed : List String
deriving DecidableEq, Repr

/-- Summary dict returned by ReactiveWorker.run. -/
structure WorkerSummary where
  status : String
  proposalsGenerated : Nat
  failedDdsId : Option String
  message : String
deriving DecidableEq, Repr

/-- ReactiveWorker._code_fix_exists: a stored code_fix whose structured
source_dds back-reference matches, or (fallback) a stored code_fix whose
title contains the source id as a substring. -/
def codeFixExists (proposals : List Proposal) (sourceDdsId : String) : Bool :=
  proposals.any (fun p =>
    (p.sourceDds == some sourceDdsId && p.ddsType == some "code_fix") ||
    (p.ddsType == some "code_fix" && substrB sourceDdsId p.title))

/-- ReactiveWorker._get_dds_by_id (the to_dict conversion is the identity of
our record up to the dropped last_execution, which generate_fix_dds never
reads). -/
def getDdsById (proposals : List Proposal) (ddsId : String) : Option Proposal :=
  proposals.find? (fun p => p.id == ddsId)

/-- ReactiveWorker._save_code_fix: the stored DDSProposal built from the
generated dict.  The description field of the source is the str rendering
of the instruction list; no modelled behaviour reads it, so it is stored
as the instruction list joined by newlines. -/
def fixToProposal (createdAt : String) (f : FixDds) : Proposal :=
  { id := f.id
    project := f.project
    title := f.goal
    description := String.intercalate "\n" f.instructions
    createdAt := createdAt
    status := f.status
    version := some f.version
    goal := some f.goal
    instructions := some f.instructions
    tool := some f.tool
    ddsType := some f.ddsType
    sourceDds := some f.sourceDds
    errorContext := some f.errorContext
    constraints := some f.constraints
    allowedPaths := some f.allowedPaths
    lastExecution := none }

/-- Clock inputs of one worker run (generate_fix_dds and _save_code_fix each
read the clock once). -/
structure WorkerEnv where
  t : DateTime
  createdAt : String
deriving Repr

/-- ReactiveWorker.run: one pass of the failure-to-fix pipeline. -/
def workerRun (env : WorkerEnv) (st : WorkerState) : WorkerState × WorkerSummary :=
  match getLatestFailure st.reports st.processed with
  | none =>
      (st, ⟨"no_failures", 0, none, "No failures detected in reports.json"⟩)
  | some fi =>
      if codeFixExists st.proposals fi.ddsId then
        (st, ⟨"no_failures", 0, some fi.ddsId,
              "Code fix already proposed for " ++ fi.ddsId⟩)
      else
        match getDdsById st.proposals fi.ddsId with
        | none =>
            (st, ⟨"stopped_on_error", 0, some fi.ddsId,
                  "Failed DDS not found: " ++ fi.ddsId⟩)
        | some failedDds =>
            let fix := generateFixDds env.t failedDds fi
            let newProp := fixToProposal env.createdAt fix
            ({ proposals := st.proposals ++ [newProp],
               reports := st.reports,
               processed := st.processed ++ [fi.ddsId] },
             ⟨"completed", 1, some fi.ddsId, "Code fix proposed: " ++ fix.id⟩)

/-- Number of stored code_fix proposals whose structured back-reference
names a given source id. -/
def countFixesFor (proposals : List Proposal) (sourceDdsId : String) : Nat :=
  (proposals.filter (fun p =>
    p.ddsType == some "code_fix" && p.sourceDds == some sourceDdsId)).length

/-! ### Contract and dispatch (node_interface/contract.py, router.py) -/

/-- The closed action whitelist (enum Action). -/
inductive Action where
  | systemStatus
  | projectInfo
  | projectSummary
  | projectList
  | projectStatus
  | inbox
  | ddsList
  | ddsListProposed
  | execStatus
  | todoList
  | ddsNew
  | ddsApprove
  | ddsReject
  | execute
  | todoToDds
deriving DecidableEq, Repr, Fintype

/-- The _READ_ONLY_ACTIONS classification set. -/
def readOnlyActions : List Action :=
  [.systemStatus, .projectInfo, .projectSummary, .projectList, .projectStatus,
   .inbox, .ddsList, .ddsListProposed, .execStatus, .todoList]

/-- The _WRITE_ACTIONS classification set. -/
def writeActions : List Action :=
  [.ddsNew, .ddsApprove, .ddsReject, .execute, .todoToDds]

/-- is_read_only. -/
def isReadOnlyA (a : Action) : Bool :=
  readOnlyActions.contains a

/-- is_write. -/
def isWriteA (a : Action) : Bool :=
  writeActions.contains a

/-- Per-source permission: every action, or an explicit subset. -/
inductive SourcePerm where
  | all
  | only (actions : List Action)
deriving Repr

/-- SOURCE_PERMISSIONS: the registered sources and their grants; every other
source is unregistered. -/
def sourcePermissions (source : String) : Option SourcePerm :=
  if source = "telegram" then some .all
  else if source = "cli" then some .all
  else if source = "voice" then some (.only readOnlyActions)
  else none

/-- validate_source_permission. -/
def validateSourcePermission (source : String) (a : Action) : Except String Unit :=
  match sourcePermissions source with
  | none => .error ("Unknown source " ++ source)
  | some .all => .ok ()
  | some (.only acts) =>
      if acts.contains a then .ok ()
      else .error ("Source " ++ source ++ " is not allowed to invoke this action")

/-- PAYLOAD_SCHEMAS restricted to required keys (the only part
validate_payload reads); none means the action declares no schema and
accepts any payload. -/
def requiredFields (a : Action) : Option (List String) :=
  match a with
  | .projectInfo => some ["name"]
  | .projectSummary => some ["name"]
  | .projectStatus => some ["name"]
  | .inbox => some []
  | .ddsNew => some ["project", "title", "description"]
  | .ddsApprove => some ["proposal_id"]
  | .ddsReject => some ["proposal_id"]
  | .execute => some ["dds_id"]
  | .todoToDds => some ["todo_id"]
  | _ => none

/-- validate_payload over the payload key set. -/
def validatePayload (a : Action) (payloadKeys : List String) : Except String Unit :=
  match requiredFields a with
  | none => .ok ()
  | some req =>
      if req.all (fun f => payloadKeys.contains f) then .ok ()
      else .error "missing required payload field"

/-- The dispatch table of Router covers every action of the enum (each
constructor is mapped to one private handler). -/
def dispatchTableActions : List Action :=
  [.systemStatus, .projectInfo, .projectSummary, .projectList, .projectStatus,
   .inbox, .ddsList, .ddsListProposed, .execStatus, .todoList,
   .ddsNew, .ddsApprove, .ddsReject, .execute, .todoToDds]

/-- Router._is_user_allowed: empty allow-list means authentication is
disabled. -/
def isUserAllowed (allowedUserIds : List String) (userId : String) : Bool :=
  allowedUserIds.isEmpty || allowedUserIds.contains userId

/-- One persisted audit entry, restricted to the fields the claims talk
about. -/
structure AuditEntry where
  source : String
  userId : String
  action : Action
  level : String
  status : String
  readOnly : Bool
  errorDetail : String
deriving DecidableEq, Repr

/-- Observable outcome of one dispatch: the response fields, the persisted
audit entry, and whether a handler ran. -/
structure DispatchResult where
  status : String
  message : String
  readOnly : Bool
  audit : AuditEntry
  handlerInvoked : Bool
deriving DecidableEq, Repr

/-- Environment of one dispatch: the configured user allow-list and the
abstract behaviour of the private handlers (a raised exception becomes an
error value). -/
structure DispatchEnv where
  allowedUserIds : List String := []
  handlerResult : Action → List String → Except String String

/-- Router.dispatch: the guard chain in source order.  The action is typed,
so guard 1 (membership of the enum) holds by construction; the remaining
guards are user authentication, source permission, payload schema, handler
lookup, handler execution.  Each outcome persists exactly one audit
entry. -/
def dispatch (env : DispatchEnv) (a : Action) (payloadKeys : List String)
    (source userId : String) : DispatchResult :=
  if ¬ isUserAllowed env.allowedUserIds userId then
    ⟨"error", "Usuario no autorizado", isReadOnlyA a,
     ⟨source, userId, a, "guard_reject", "error", isReadOnlyA a,
      "user_not_allowed:" ++ userId⟩, false⟩
  else
    match validateSourcePermission source a with
    | .error _ =>
        ⟨"error", "Permiso denegado", isReadOnlyA a,
         ⟨source, userId, a, "guard_reject", "error", isReadOnlyA a,
          "source_denied:" ++ source⟩, false⟩
    | .ok _ =>
        match validatePayload a payloadKeys with
        | .error e =>
            ⟨"error", "Payload invalido", isReadOnlyA a,
             ⟨source, userId, a, "guard_reject", "error", isReadOnlyA a,
              "payload_invalid:" ++ e⟩, false⟩
        | .ok _ =>
            if ¬ dispatchTableActions.contains a then
              ⟨"error", "Accion sin handler", isReadOnlyA a,
               ⟨source, userId, a, "error", "error", isReadOnlyA a,
                "no_handler_registered"⟩, false⟩
            else
              match env.handlerResult a payloadKeys with
              | .ok msg =>
                  let level := if isWriteA a then "decision" else "info"
                  ⟨"ok", msg, isReadOnlyA a,
                   ⟨source, userId, a, level, "ok", isReadOnlyA a, ""⟩, true⟩
              | .error e =>
                  ⟨"error", "Error interno: " ++ e, isReadOnlyA a,
                   ⟨source, userId, a, "error", "error", isReadOnlyA a,
                    "handler_exception:" ++ e⟩, true⟩

/-! ### Concrete fixtures used by witnesses and counterexamples -/

/-- A constraints record with only a file ceiling. -/
def sampleConstraints : Constraints :=
  { maxFilesChanged := some 3 }

/-- The relative allowed path src. -/
def srcEntry : PathSpec := ⟨false, ["src"]⟩

/-- The relative allowed path src/../src: contains a traversal component but
resolves back inside the workspace. -/
def dotdotEntry : PathSpec := ⟨false, ["src", "..", "src"]⟩

/-- A relative allowed path that does not exist in the copied tree. -/
def missingEntry : PathSpec := ⟨false, ["nope"]⟩

/-- A structurally valid approved code_change proposal over the given
allowed paths. -/
def validProposal (i : String) (paths : List PathSpec) : Proposal :=
  { id := i
    project := "proj"
    title := "sample"
    status := "approved"
    version := some 2
    goal := some "Add feature"
    instructions := some ["step one"]
    tool := some "aider"
    ddsType := some "code_change"
    constraints := some sampleConstraints
    allowedPaths := some paths }

/-- An approved proposal that fails structural validation (missing schema
version). -/
def invalidVersionProposal (i : String) : Proposal :=
  { validProposal i [srcEntry] with version := none }

/-- An execution environment: project source resolves, the workspace root is
ws, the copied tree holds ws/src, and the tool run created one file inside
src. -/
def baseEnv : ExecEnv :=
  { now := "2026-01-02 03:04:05"
    projectFound := true
    wsRoot := ["ws"]
    fs := [["ws"], ["ws", "src"]]
    created := ["src/a.py"]
    modified := [] }

/-- Store with one valid approved proposal and an empty report log. -/
def oneGoodSt : SysState :=
  ⟨[validProposal "DDS-1" [srcEntry]], []⟩

/-- Store whose single approved proposal declares the traversal-containing
allowed path src/../src. -/
def dotdotSt : SysState :=
  ⟨[validProposal "DDS-1" [dotdotEntry]], []⟩

/-- Store whose single approved proposal declares a missing allowed path. -/
def missingPathSt : SysState :=
  ⟨[validProposal "DDS-1" [missingEntry]], []⟩

/-- The report returned by the first (successful) execution of DDS-1 in
oneGoodSt under baseEnv. -/
def firstRunRep : Report :=
  ⟨"DDS-1", "code_change", "success", "2026-01-02 03:04:05",
   "Execution completed. Files changed: 1 (1 created, 0 modified). Constraints: OK."⟩

/-- Store with a valid first proposal and an invalid second one, both
approved: the scheduler executes DDS-1 and stops at DDS-2. -/
def schedSt : SysState :=
  ⟨[validProposal "DDS-1" [srcEntry], invalidVersionProposal "DDS-2"], []⟩

/-- Per-call environments of the scheduler witness run. -/
def schedEnvs : Nat → ExecEnv := fun _ => baseEnv

/-- A fixable failure report (field validation error). -/
def fixableFailReport : Report :=
  ⟨"DDS-1", "code_change", "failed", "2026-01-02 03:04:05",
   "Execution failed: Missing or invalid required field: goal (must be non-empty string)"⟩

/-- The failure record the analyzer extracts from fixableFailReport. -/
def fixableFailInfo : FailureInfo :=
  ⟨"DDS-1", "Execution failed: Missing or invalid required field: goal (must be non-empty string)",
   "2026-01-02 03:04:05", "code_change"⟩

/-- Clock reading used by fix-generation witnesses. -/
def witClock : DateTime := ⟨2026, 1, 2, 3, 4, 5, 111111⟩

/-- A second clock reading within the same second (different microsecond
field). -/
def witClockSameSecond : DateTime := ⟨2026, 1, 2, 3, 4, 5, 222222⟩

/-- A second, distinct failure record used by the id-collision input. -/
def otherFailInfo : FailureInfo :=
  ⟨"DDS-2", "Execution failed: Constraint violations: Max files changed exceeded: 4 > 3",
   "2026-01-02 03:04:06", "code_change"⟩

/-- An already-stored fix proposal whose structured back-reference names
DDS-1. -/
def storedFixForDds1 : Proposal :=
  fixToProposal "2026-01-02T03:04:05" (generateFixDds witClock (validProposal "DDS-1" [srcEntry]) fixableFailInfo)

/-- Worker state that already contains a fix for the only unresolved
failure. -/
def dupWorkerSt : WorkerState :=
  ⟨[validProposal "DDS-1" [srcEntry], storedFixForDds1], [fixableFailReport], []⟩

/-- Worker clock environment. -/
def witWorkerEnv : WorkerEnv :=
  ⟨witClock, "2026-01-02T03:04:05"⟩

/-- Dispatch environment with authentication disabled and a trivial handler
table behaviour. -/
def openDispatchEnv : DispatchEnv :=
  { allowedUserIds := [], handlerResult := fun _ _ => .ok "done" }

/-- Whether the report log already holds a successful execution report for
an id. -/
def hasSuccessReport (st : SysState) (ddsId : String) : Bool :=
  st.reports.any (fun r => r.ddsId == ddsId && r.status == "success")

/-- The already-executed error category, as the router classifies
ProgrammerError messages (substring test for either phrasing used by the
engine). -/
def isAlreadyExecutedError (msg : String) : Bool :=
  substrB "already been executed" msg || substrB "already executed" msg

/-- Whether one engine call failed with an already-executed error without
invoking the external tool. -/
def failsAlreadyExecutedB (r : ExecResult) : Bool :=
  match r.result with
  | .error e => isAlreadyExecutedError e && !r.aiderInvoked
  | .ok _ => false

/-- Element of an id list at an index (empty string out of range). -/
def idAt (ids : List String) (n : Nat) : String :=
  ids.getD n ""

/-- Possible final proposal lists of one engine call, as a function of an
optional last-execution write. -/
def applyLE (ps : List Proposal) (d : String) : Option LastExec → List Proposal
  | none => ps
  | some l => setLastExecFirst ps d l

/-- The ids the scheduler drains, in execution order. -/
def approvedIds (st : SysState) : List String :=
  (approvedSorted st).map Proposal.id

/-- Store with two valid approved proposals, used by the frame witness. -/
def twoGoodSt : SysState :=
  ⟨[validProposal "DDS-1" [srcEntry], validProposal "DDS-2" [srcEntry]], []⟩

/-! ## Theorems -/

/-! ### Substring helper lemmas -/

theorem listContains_of_isEmpty {n : List Char} (h : n.isEmpty = true) :
    ∀ l : List Char, listContains n l = true := by
  intro l
  induction l with
  | nil => simpa [listContains] using h
  | cons c rest ih =>
      have hn : n = [] := by cases n <;> simp_all [List.isEmpty]
      subst hn
      simp [listContains, List.isPrefixOf]

theorem listContains_append_right {n h : List Char} (hc : listContains n h = true)
    (t : List Char) : listContains n (h ++ t) = true := by
  induction h with
  | nil =>
      simp only [listContains] at hc
      exact listContains_of_isEmpty hc t
  | cons c hs ih =>
      simp only [listContains, Bool.or_eq_true] at hc ⊢
      rcases hc with hp | hrest
      · left
        have hpre : n <+: c :: hs := List.isPrefixOf_iff_prefix.mp hp
        exact List.isPrefixOf_iff_prefix.mpr (hpre.trans (List.prefix_append _ t))
      · right
        exact ih hrest

theorem listContains_append_left {n t : List Char} (hc : listContains n t = true)
    (h : List Char) : listContains n (h ++ t) = true := by
  induction h with
  | nil => simpa
  | cons c hs ih =>
      simp only [List.cons_append, listContains, Bool.or_eq_true]
      right
      exact ih

theorem substrB_append_right {n h : String} (hc : substrB n h = true) (t : String) :
    substrB n (h ++ t) = true := by
  have hd : (h ++ t).toList = h.toList ++ t.toList := String.data_append h t
  unfold substrB at hc ⊢
  rw [hd]
  exact listContains_append_right hc _

theorem substrB_append_left {n t : String} (hc : substrB n t = true) (h : String) :
    substrB n (h ++ t) = true := by
  have hd : (h ++ t).toList = h.toList ++ t.toList := String.data_append h t
  unfold substrB at hc ⊢
  rw [hd]
  exact listContains_append_left hc _

/-! ### C9: read-only / mutating classification partitions the action enum -/

/-- C9: for every action of the closed enum, exactly one of read-only and
mutating holds, and the two classification sets jointly cover the enum:
no action lies in both sets and none lies in neither. -/
theorem action_partition :
    ∀ a : Action,
      (isReadOnlyA a = true ∧ isWriteA a = false) ∨
      (isReadOnlyA a = false ∧ isWriteA a = true) := by
  decide

/-! ### C8: unregistered sources are always guard-rejected -/

/-- C8: for every action of the enum and every payload, a dispatch whose
source identifier is not registered in the source-permission table yields
an error response whose audit entry carries guard_reject severity, and no
handler is invoked: there is no default-permit for unknown sources. -/
theorem unregistered_source_guard_reject
    (env : DispatchEnv) (a : Action) (payloadKeys : List String)
    (source userId : String)
    (h : sourcePermissions source = none) :
    (dispatch env a payloadKeys source userId).status = "error" ∧
    (dispatch env a payloadKeys source userId).audit.level = "guard_reject" ∧
    (dispatch env a payloadKeys source userId).handlerInvoked = false := by
  unfold dispatch
  by_cases hu : isUserAllowed env.allowedUserIds userId
  · simp [hu, validateSourcePermission, h]
  · simp [hu]

/-- Witness for C8 at a concrete unregistered source. -/
theorem unregistered_source_guard_reject_witness :
    (dispatch openDispatchEnv .execute [] "spotify" "u1").status = "error" ∧
    (dispatch openDispatchEnv .execute [] "spotify" "u1").audit.level = "guard_reject" ∧
    (dispatch openDispatchEnv .execute [] "spotify" "u1").handlerInvoked = false :=
  unregistered_source_guard_reject openDispatchEnv .execute [] "spotify" "u1" rfl

/-! ### C4: environment / infra failures never reach the fix pipeline -/

theorem latestFailureScan_not_unfixable {processed : List String}
    {l : List Report} {f : FailureInfo}
    (h : latestFailureScan processed l = some f) :
    isUnfixableError f.errorMessage = false := by
  induction l with
  | nil => simp [latestFailureScan] at h
  | cons e rest ih =>
      unfold latestFailureScan at h
      split at h
      · exact ih h
      · split at h
        · exact ih h
        · split at h
          · exact ih h
          · split at h
            · exact ih h
            · rename_i hfix
              cases h
              simpa using hfix

/-- C4: get_latest_failure never returns a failed entry whose notes match
one of the fixed unfixable substrings (timeout, timed out, rate limit,
connection refused, 503, command not found, aider: not found), so an
environment / infrastructure failure never produces a fix proposal. -/
theorem latest_failure_never_unfixable
    (reports : List Report) (processed : List String) (f : FailureInfo)
    (h : getLatestFailure reports processed = some f) :
    isUnfixableError f.errorMessage = false :=
  latestFailureScan_not_unfixable h

/-- Witness for C4 on a concrete report log holding one fixable failure. -/
theorem latest_failure_never_unfixable_witness :
    getLatestFailure [fixableFailReport] [] = some fixableFailInfo ∧
    isUnfixableError fixableFailInfo.errorMessage = false :=
  ⟨by decide, latest_failure_never_unfixable [fixableFailReport] [] fixableFailInfo (by decide)⟩

/-! ### C5: generated fixes are restricted, proposed, traceable -/

/-- C5: for every failed proposal and failure record, generate_fix_dds
yields a proposal with status proposed (never approved), whose
max_files_changed is the minimum of the original value and the hard
ceiling 3, whose no_new_dependencies and no_refactor flags are forced true
regardless of the original, which copies forward the original allowed
paths and tool, and which attaches an error-context record holding the
original proposal id, the sanitized error message, and the failure
timestamp. -/
theorem fix_dds_restricted_and_proposed
    (t : DateTime) (failedDds : Proposal) (fi : FailureInfo)
    (c : Constraints) (m : Nat) (ap : List PathSpec) (tl : String)
    (hc : failedDds.constraints = some c)
    (hm : c.maxFilesChanged = some m)
    (hap : failedDds.allowedPaths = some ap)
    (ht : failedDds.tool = some tl) :
    (generateFixDds t failedDds fi).status = "proposed" ∧
    (generateFixDds t failedDds fi).constraints.maxFilesChanged = some (min m 3) ∧
    (generateFixDds t failedDds fi).constraints.noNewDependencies = true ∧
    (generateFixDds t failedDds fi).constraints.noRefactor = true ∧
    (generateFixDds t failedDds fi).allowedPaths = ap ∧
    (generateFixDds t failedDds fi).tool = tl ∧
    (generateFixDds t failedDds fi).errorContext =
      ⟨fi.ddsId, sanitizeError fi.errorMessage, fi.failedAt⟩ := by
  simp [generateFixDds, hc, hm, hap, ht]

/-- Witness for C5 at a concrete failed proposal and failure record. -/
theorem fix_dds_restricted_and_proposed_witness :
    (generateFixDds witClock (validProposal "DDS-1" [srcEntry]) fixableFailInfo).status = "proposed" ∧
    (generateFixDds witClock (validProposal "DDS-1" [srcEntry]) fixableFailInfo).constraints.maxFilesChanged = some (min 3 3) ∧
    (generateFixDds witClock (validProposal "DDS-1" [srcEntry]) fixableFailInfo).constraints.noNewDependencies = true ∧
    (generateFixDds witClock (validProposal "DDS-1" [srcEntry]) fixableFailInfo).constraints.noRefactor = true ∧
    (generateFixDds witClock (validProposal "DDS-1" [srcEntry]) fixableFailInfo).allowedPaths = [srcEntry] ∧
    (generateFixDds witClock (validProposal "DDS-1" [srcEntry]) fixableFailInfo).tool = "aider" ∧
    (generateFixDds witClock (validProposal "DDS-1" [srcEntry]) fixableFailInfo).errorContext =
      ⟨fixableFailInfo.ddsId, sanitizeError fixableFailInfo.errorMessage, fixableFailInfo.failedAt⟩ :=
  fix_dds_restricted_and_proposed witClock (validProposal "DDS-1" [srcEntry]) fixableFailInfo
    sampleConstraints 3 [srcEntry] "aider" rfl rfl rfl rfl

/-! ### C7: fix ids carry only second resolution and collide within a tick -/

/-- C7 (refuting evaluation): two distinct clock readings within the same
second, applied to two distinct failures, produce identical fix ids:
the strftime format of generate_fix_dds renders no sub-second field and no
existing id is consulted, so two fixes generated in the same process tick
collide. -/
theorem fix_id_same_tick_collision :
    witClock ≠ witClockSameSecond ∧
    fixableFailInfo ≠ otherFailInfo ∧
    (generateFixDds witClock (validProposal "DDS-1" [srcEntry]) fixableFailInfo).id =
      (generateFixDds witClockSameSecond (invalidVersionProposal "DDS-2") otherFailInfo).id ∧
    fixIdOf witClock = "DDS-FIX-20260102-030405" := by
  refine ⟨by decide, by decide, ?_, ?_⟩ <;> rfl

/-! ### C1: allowed-path validation before tool invocation -/

theorem scopedCopyCheck_ok_mem {fs : List (List String)} {ws : List String} :
    ∀ {l : List PathSpec}, scopedCopyCheck fs ws l = .ok () →
      ∀ e ∈ l, pathExists fs (resolveUnder ws e) = true ∧
        isInsideWs ws (resolveUnder ws e) = true := by
  intro l
  induction l with
  | nil => intro _ e he; cases he
  | cons a rest ih =>
      intro h e he
      unfold scopedCopyCheck at h
      split at h
      · cases h
      · split at h
        · cases h
        · rename_i hex hin
          cases he with
          | head => exact ⟨by simpa using hex, by simpa using hin⟩
          | tail _ hmem => exact ih h e hmem

/-- C1 (amended): for every code_change execution, an allowed-path entry
that does not exist in the copied workspace tree or that resolves outside
the workspace root after normalisation makes execute_code_change fail with
a validation error, and run_aider is never invoked for that proposal; a
traversal component or an absolute entry is rejected only through these
two checks (see the counterexample for an entry containing a dot-dot
component that resolves back inside the workspace and is executed). -/
theorem invalid_allowed_path_rejected_before_tool
    (st : SysState) (env : ExecEnv) (ddsId : String) (dds : Proposal) (e : PathSpec)
    (hfind : findApproved st ddsId = some dds)
    (hmem : e ∈ dds.allowedPaths.getD [])
    (hbad : pathExists env.fs (resolveUnder env.wsRoot e) = false ∨
            isInsideWs env.wsRoot (resolveUnder env.wsRoot e) = false) :
    (execCodeChange st env ddsId).result.isOk = false ∧
    (execCodeChange st env ddsId).aiderInvoked = false := by
  have hscoped : ∀ u, scopedCopyCheck env.fs env.wsRoot (dds.allowedPaths.getD []) ≠ .ok u := by
    intro u hok
    have := scopedCopyCheck_ok_mem (by cases u; exact hok) e hmem
    rcases hbad with hb | hb <;> simp [hb] at this
  simp only [execCodeChange, hfind]
  split
  · exact ⟨rfl, rfl⟩
  · split
    · exact ⟨rfl, rfl⟩
    · split
      · exact ⟨rfl, rfl⟩
      · split
        · exact ⟨rfl, rfl⟩
        · split
          · exact ⟨rfl, rfl⟩
          · split
            · exact ⟨rfl, rfl⟩
            · rename_i u hu
              exact absurd hu (hscoped u)

/-- Witness for C1 at a concrete proposal whose allowed path is missing
from the copied tree. -/
theorem invalid_allowed_path_rejected_before_tool_witness :
    (execCodeChange missingPathSt baseEnv "DDS-1").result.isOk = false ∧
    (execCodeChange missingPathSt baseEnv "DDS-1").aiderInvoked = false :=
  invalid_allowed_path_rejected_before_tool missingPathSt baseEnv "DDS-1"
    (validProposal "DDS-1" [missingEntry]) missingEntry rfl (by decide) (Or.inl (by decide))

/-- Counterexample for C1 as frozen: an allowed path containing a dot-dot
component that resolves back inside the workspace is not rejected —
execute_code_change completes and run_aider is invoked, because the
engine never applies the lexical dot-dot / absolute-path checks of
_validate_sandbox_path to code_change allowed paths. -/
theorem dotdot_path_reaches_tool :
    specHasDotDot dotdotEntry = true ∧
    (validProposal "DDS-1" [dotdotEntry]).allowedPaths = some [dotdotEntry] ∧
    (execCodeChange dotdotSt baseEnv "DDS-1").aiderInvoked = true ∧
    (execCodeChange dotdotSt baseEnv "DDS-1").result.isOk = true := by
  refine ⟨by decide, rfl, ?_, ?_⟩ <;> rfl

/-! ### Structural lemmas about the engine state transition -/

theorem setLastExecFirst_map_clear (ps : List Proposal) (i : String) (le : LastExec) :
    (setLastExecFirst ps i le).map clearLastExec = ps.map clearLastExec := by
  induction ps with
  | nil => rfl
  | cons p rest ih =>
      unfold setLastExecFirst
      split
      · simp [clearLastExec]
      · simp [ih]

theorem zip_self_eq (ps : List Proposal) :
    ∀ pq ∈ ps.zip ps, pq.1 = pq.2 := by
  induction ps with
  | nil => intro pq h; cases h
  | cons p rest ih =>
      intro pq hm
      cases hm with
      | head => rfl
      | tail _ hmem => exact ih pq hmem

theorem setLastExecFirst_zip_frame (ps : List Proposal) (i : String) (le : LastExec) :
    ∀ pq ∈ (setLastExecFirst ps i le).zip ps, pq.2.id ≠ i → pq.1 = pq.2 := by
  induction ps with
  | nil => intro pq h; cases h
  | cons p rest ih =>
      unfold setLastExecFirst
      split
      · rename_i heq
        intro pq hm hne
        cases hm with
        | head => exact absurd (by simpa using heq) hne
        | tail _ hmem => exact zip_self_eq rest pq hmem
      · intro pq hm hne
        cases hm with
        | head => rfl
        | tail _ hmem => exact ih pq hmem hne

theorem statusOfP_setLastExecFirst (ps : List Proposal) (i x : String) (le : LastExec) :
    statusOfP (setLastExecFirst ps i le) x = statusOfP ps x := by
  induction ps with
  | nil => rfl
  | cons p rest ih =>
      unfold setLastExecFirst statusOfP
      split
      · simp only [List.find?]
        split <;> rfl
      · simp only [List.find?]
        split
        · rfl
        · exact ih

theorem mapId_setLastExecFirst (ps : List Proposal) (i : String) (le : LastExec) :
    (setLastExecFirst ps i le).map Proposal.id = ps.map Proposal.id := by
  induction ps with
  | nil => rfl
  | cons p rest ih =>
      unfold setLastExecFirst
      split
      · simp
      · simp [ih]

theorem execCodeChange_shape (st : SysState) (env : ExecEnv) (d : String) :
    ∃ (extra : List Report) (le : Option LastExec),
      (execCodeChange st env d).state.reports = st.reports ++ extra ∧
      (∀ r ∈ extra, r.ddsId = d) ∧
      (execCodeChange st env d).state.proposals = applyLE st.proposals d le := by
  unfold execCodeChange
  split
  · exact ⟨[_], none, rfl, by simp, rfl⟩
  · split
    · exact ⟨[], none, by simp, by simp, rfl⟩
    · split
      · exact ⟨[], none, by simp, by simp, rfl⟩
      · split
        · exact ⟨[_], some _, rfl, by simp, rfl⟩
        · split
          · exact ⟨[_], some _, rfl, by simp, rfl⟩
          · split
            · exact ⟨[_], some _, rfl, by simp, rfl⟩
            · split
              · exact ⟨[_], some _, rfl, by simp, rfl⟩
              · split
                · exact ⟨[_], some _, rfl, by simp, rfl⟩
                · exact ⟨[_], some _, rfl, by simp, rfl⟩

theorem execCodeChange_statusOf (st : SysState) (env : ExecEnv) (d x : String) :
    statusOf (execCodeChange st env d).state x = statusOf st x := by
  obtain ⟨extra, le, _, _, hp⟩ := execCodeChange_shape st env d
  unfold statusOf
  rw [hp]
  cases le with
  | none => rfl
  | some l => exact statusOfP_setLastExecFirst st.proposals d x l

theorem execCodeChange_mapId (st : SysState) (env : ExecEnv) (d : String) :
    (execCodeChange st env d).state.proposals.map Proposal.id =
      st.proposals.map Proposal.id := by
  obtain ⟨extra, le, _, _, hp⟩ := execCodeChange_shape st env d
  rw [hp]
  cases le with
  | none => rfl
  | some l => exact mapId_setLastExecFirst st.proposals d l

theorem execCodeChange_reportsFor (st : SysState) (env : ExecEnv) (d x : String)
    (hx : x ≠ d) :
    reportsFor (execCodeChange st env d).state x = reportsFor st x := by
  obtain ⟨extra, le, hr, hd, _⟩ := execCodeChange_shape st env d
  unfold reportsFor
  rw [hr, List.filter_append]
  have hnil : extra.filter (fun r => r.ddsId == x) = [] := by
    apply List.filter_eq_nil_iff.mpr
    intro r hrr
    have := hd r hrr
    simp [this]
    exact fun h => hx h.symm
  rw [hnil, List.append_nil]

/-! ### C10: the engine writes only the last-execution record -/

/-- C10: on every path of execute_code_change, successful or failed, the
only change to the proposal store is the last-execution record of at most
the target proposal: erasing the last-execution field makes the before and
after proposal lists equal (so every other field, including status, is
untouched and no proposal is added or removed), and every proposal whose
id differs from the target is entirely unchanged. -/
theorem engine_touches_only_last_execution (st : SysState) (env : ExecEnv) (d : String) :
    ((execCodeChange st env d).state.proposals.map clearLastExec =
      st.proposals.map clearLastExec) ∧
    (∀ pq ∈ (execCodeChange st env d).state.proposals.zip st.proposals,
      pq.2.id ≠ d → pq.1 = pq.2) := by
  obtain ⟨extra, le, _, _, hp⟩ := execCodeChange_shape st env d
  constructor
  · rw [hp]
    cases le with
    | none => rfl
    | some l => exact setLastExecFirst_map_clear st.proposals d l
  · rw [hp]
    cases le with
    | none => exact fun pq hm _ => zip_self_eq st.proposals pq hm
    | some l => exact setLastExecFirst_zip_frame st.proposals d l

/-- Witness for C10: a concrete two-proposal store where executing the
first proposal leaves the second untouched and changes nothing but
last-execution data. -/
theorem engine_touches_only_last_execution_witness :
    ((execCodeChange twoGoodSt baseEnv "DDS-1").state.proposals.map clearLastExec =
      twoGoodSt.proposals.map clearLastExec) ∧
    (validProposal "DDS-2" [srcEntry], validProposal "DDS-2" [srcEntry]).1 =
      (validProposal "DDS-2" [srcEntry], validProposal "DDS-2" [srcEntry]).2 :=
  ⟨(engine_touches_only_last_execution twoGoodSt baseEnv "DDS-1").1,
   (engine_touches_only_last_execution twoGoodSt baseEnv "DDS-1").2
     (validProposal "DDS-2" [srcEntry], validProposal "DDS-2" [srcEntry])
     (by decide) (by decide)⟩

/-! ### C2: idempotency of execution -/

theorem hasSuccessReport_isAlready {st : SysState} {d : String}
    (h : hasSuccessReport st d = true) : isAlreadyExecuted st d = true := by
  unfold hasSuccessReport at h
  unfold isAlreadyExecuted
  rw [List.any_eq_true] at h ⊢
  obtain ⟨r, hr, hpred⟩ := h
  rw [Bool.and_eq_true] at hpred
  exact ⟨r, hr, hpred.1⟩

theorem exec_fails_when_reported (st : SysState) (env : ExecEnv) (d : String)
    (h : isAlreadyExecuted st d = true) :
    failsAlreadyExecutedB (execCodeChange st env d) = true := by
  unfold execCodeChange
  split
  · have hmsg : isAlreadyExecutedError ("DDS already executed successfully: " ++ d) = true := by
      unfold isAlreadyExecutedError
      rw [Bool.or_eq_true]
      right
      exact substrB_append_right (by decide) d
    simp [failsAlreadyExecutedB, hmsg]
  · have hmsg : isAlreadyExecutedError ("DDS " ++ d ++ " has already been executed") = true := by
      unfold isAlreadyExecutedError
      rw [Bool.or_eq_true]
      left
      exact substrB_append_left (by decide) ("DDS " ++ d)
    simp [h, failsAlreadyExecutedB, hmsg]

theorem execCodeChange_ok_char (st : SysState) (env : ExecEnv) (d : String) :
    ∀ rep, (execCodeChange st env d).result = .ok rep →
      rep.ddsId = d ∧ (execCodeChange st env d).state.reports = st.reports ++ [rep] := by
  intro rep
  unfold execCodeChange
  split
  · intro h; simp at h
  · split
    · intro h; simp at h
    · split
      · intro h; simp at h
      · split
        · intro h; simp [execCatchProgrammer] at h
        · split
          · intro h; simp [execCatchProgrammer] at h
          · split
            · intro h; simp [execCatchUnexpected] at h
            · split
              · intro h; simp [execCatchProgrammer] at h
              · split
                · intro h; simp [execCatchProgrammer] at h
                · intro h
                  have hrep := h.symm
                  cases hrep
                  exact ⟨rfl, rfl⟩

/-- C2: if the store already holds a successful execution report for an id,
every execute_code_change call on that id fails with the already-executed
error category and never invokes the tool; in particular, when a first
call returns a success report, a second call on the same id always fails
with the already-executed category and never silently re-executes. -/
theorem second_execution_always_rejected (st : SysState) (env env2 : ExecEnv) (d : String) :
    (hasSuccessReport st d = true →
      failsAlreadyExecutedB (execCodeChange st env d) = true) ∧
    (∀ rep, (execCodeChange st env d).result = .ok rep → rep.status = "success" →
      failsAlreadyExecutedB (execCodeChange (execCodeChange st env d).state env2 d) = true) := by
  constructor
  · intro h
    exact exec_fails_when_reported st env d (hasSuccessReport_isAlready h)
  · intro rep hok hsucc
    obtain ⟨hdd, hrep⟩ := execCodeChange_ok_char st env d rep hok
    apply exec_fails_when_reported
    unfold isAlreadyExecuted
    rw [hrep, List.any_append]
    simp [hdd]

/-- Witness for C2: the concrete one-proposal store where the first call
succeeds and the second call is rejected. -/
theorem second_execution_always_rejected_witness :
    failsAlreadyExecutedB
      (execCodeChange (execCodeChange oneGoodSt baseEnv "DDS-1").state baseEnv "DDS-1") = true :=
  (second_execution_always_rejected oneGoodSt baseEnv baseEnv "DDS-1").2 firstRunRep rfl rfl

/-! ### C6: the worker never drafts a second fix for the same failure -/

theorem latestFailureScan_not_processed {processed : List String}
    {l : List Report} {f : FailureInfo}
    (h : latestFailureScan processed l = some f) :
    processed.contains f.ddsId = false := by
  induction l with
  | nil => simp [latestFailureScan] at h
  | cons e rest ih =>
      unfold latestFailureScan at h
      split at h
      · exact ih h
      · split at h
        · exact ih h
        · split at h
          · exact ih h
          · split at h
            · exact ih h
            · rename_i hproc _
              cases h
              simpa using hproc

theorem getLatestFailure_not_processed {reports : List Report}
    {processed : List String} {f : FailureInfo}
    (h : getLatestFailure reports processed = some f) :
    processed.contains f.ddsId = false :=
  latestFailureScan_not_processed h

theorem countFixesFor_append_ne (ps : List Proposal) (p : Proposal) (x : String)
    (hp : p.sourceDds ≠ some x) :
    countFixesFor (ps ++ [p]) x = countFixesFor ps x := by
  unfold countFixesFor
  rw [List.filter_append]
  have hb : (p.sourceDds == some x) = false := by
    simpa using hp
  simp [List.filter, hb]

/-- C6: a worker run that finds a failure for which the store already holds
a fix (structured source_dds back-reference or title fallback) stops
without creating any proposal and leaves the state untouched; and after a
run that successfully drafts a fix for source id x, a repeat run adds no
further fix referencing x, because x is marked processed and any fix the
second run might draft references a different source. -/
theorem worker_never_duplicates_fix (env env2 : WorkerEnv) (st : WorkerState) :
    (∀ fi, getLatestFailure st.reports st.processed = some fi →
      codeFixExists st.proposals fi.ddsId = true →
      workerRun env st = (st, ⟨"no_failures", 0, some fi.ddsId,
        "Code fix already proposed for " ++ fi.ddsId⟩)) ∧
    (∀ x, (workerRun env st).2.status = "completed" →
      (workerRun env st).2.failedDdsId = some x →
      countFixesFor (workerRun env2 (workerRun env st).1).1.proposals x =
        countFixesFor (workerRun env st).1.proposals x) := by
  constructor
  · intro fi hfi hdup
    simp [workerRun, hfi, hdup]
  · intro x h1 h2
    cases hfi : getLatestFailure st.reports st.processed with
    | none => rw [workerRun] at h1; simp [hfi] at h1
    | some fi =>
        cases hdup : codeFixExists st.proposals fi.ddsId with
        | true => rw [workerRun] at h1; simp [hfi, hdup] at h1
        | false =>
            cases hget : getDdsById st.proposals fi.ddsId with
            | none => rw [workerRun] at h1; simp [hfi, hdup, hget] at h1
            | some fd =>
                have hrun1 : workerRun env st =
                    ({ proposals := st.proposals ++
                        [fixToProposal env.createdAt (generateFixDds env.t fd fi)],
                       reports := st.reports,
                       processed := st.processed ++ [fi.ddsId] },
                     ⟨"completed", 1, some fi.ddsId,
                      "Code fix proposed: " ++ (generateFixDds env.t fd fi).id⟩) := by
                  simp [workerRun, hfi, hdup, hget]
                rw [hrun1] at h2 ⊢
                obtain rfl : fi.ddsId = x := by simpa using h2
                set st1 : WorkerState :=
                  { proposals := st.proposals ++
                      [fixToProposal env.createdAt (generateFixDds env.t fd fi)],
                    reports := st.reports,
                    processed := st.processed ++ [fi.ddsId] } with hst1
                cases hfi2 : getLatestFailure st1.reports st1.processed with
                | none => simp [workerRun, hfi2]
                | some fi2 =>
                    have hne : fi2.ddsId ≠ fi.ddsId := by
                      intro hEq
                      have hnp := getLatestFailure_not_processed hfi2
                      rw [hEq] at hnp
                      have : st1.processed.contains fi.ddsId = true := by
                        rw [hst1]
                        simp
                      rw [hnp] at this
                      cases this
                    cases hdup2 : codeFixExists st1.proposals fi2.ddsId with
                    | true => simp [workerRun, hfi2, hdup2]
                    | false =>
                        cases hget2 : getDdsById st1.proposals fi2.ddsId with
                        | none => simp [workerRun, hfi2, hdup2, hget2]
                        | some fd2 =>
                            simp only [workerRun, hfi2, hdup2, Bool.false_eq_true,
                              if_false, hget2]
                            exact countFixesFor_append_ne st1.proposals _ fi.ddsId
                              (by simpa [fixToProposal, generateFixDds] using hne)

/-- Witness for C6: a concrete store that already holds a fix for its only
unresolved failure; the run stops without creating a proposal. -/
theorem worker_never_duplicates_fix_witness :
    workerRun witWorkerEnv dupWorkerSt =
      (dupWorkerSt, ⟨"no_failures", 0, some "DDS-1",
        "Code fix already proposed for DDS-1"⟩) :=
  (worker_never_duplicates_fix witWorkerEnv witWorkerEnv dupWorkerSt).1
    fixableFailInfo (by decide) (by decide)

/-! ### C3: scheduler lemmas -/

theorem statusOfP_clear (ps : List Proposal) (x : String) :
    statusOfP (ps.map clearLastExec) x = statusOfP ps x := by
  induction ps with
  | nil => rfl
  | cons p rest ih =>
      unfold statusOfP
      simp only [List.map, List.find?]
      cases hpx : (p.id == x) with
      | true =>
          rw [show ((clearLastExec p).id == x) = true from hpx]
          rfl
      | false =>
          rw [show ((clearLastExec p).id == x) = false from hpx]
          exact ih

theorem statusOfP_setStatusFirst_self (ps : List Proposal) (x s : String)
    (hmem : x ∈ ps.map Proposal.id) :
    statusOfP (setStatusFirst ps x s) x = some s := by
  induction ps with
  | nil => cases hmem
  | cons p rest ih =>
      unfold setStatusFirst
      split
      · rename_i h
        unfold statusOfP
        simp only [List.find?]
        rw [show (({ p with status := s } : Proposal).id == x) = true from h]
        rfl
      · rename_i h
        unfold statusOfP
        simp only [List.find?]
        rw [show (p.id == x) = false from by simpa using h]
        have hx : x ∈ rest.map Proposal.id := by
          rcases List.mem_map.mp hmem with ⟨q, hq, hqx⟩
          cases hq with
          | head => exact absurd (by simp [hqx]) h
          | tail _ hq2 => exact List.mem_map.mpr ⟨q, hq2, hqx⟩
        exact ih hx

theorem statusOfP_setStatusFirst_other (ps : List Proposal) (x y s : String)
    (hxy : x ≠ y) :
    statusOfP (setStatusFirst ps y s) x = statusOfP ps x := by
  induction ps with
  | nil => rfl
  | cons p rest ih =>
      unfold setStatusFirst
      split
      · rename_i h
        have hpy : p.id = y := by simpa using h
        have hpx : (p.id == x) = false := by
          simp [hpy]
          exact fun hc => hxy hc.symm
        unfold statusOfP
        simp only [List.find?]
        rw [show (({ p with status := s } : Proposal).id == x) = false from hpx]
      · unfold statusOfP at ih ⊢
        simp only [List.find?]
        cases hpx : (p.id == x) with
        | true => rfl
        | false => exact ih

theorem mapId_setStatusFirst (ps : List Proposal) (y s : String) :
    (setStatusFirst ps y s).map Proposal.id = ps.map Proposal.id := by
  induction ps with
  | nil => rfl
  | cons p rest ih =>
      unfold setStatusFirst
      split
      · simp
      · simp [ih]

theorem mapId_clear (ps : List Proposal) :
    (ps.map clearLastExec).map Proposal.id = ps.map Proposal.id := by
  induction ps with
  | nil => rfl
  | cons p rest ih => simp [clearLastExec, ih]

theorem statusOf_registrySetStatus_self (st : SysState) (x s : String)
    (hmem : x ∈ st.proposals.map Proposal.id) :
    statusOf (registrySetStatus st x s) x = some s := by
  unfold statusOf registrySetStatus
  exact statusOfP_setStatusFirst_self _ x s (by rw [mapId_clear]; exact hmem)

theorem statusOf_registrySetStatus_other (st : SysState) (x y s : String)
    (hxy : x ≠ y) :
    statusOf (registrySetStatus st y s) x = statusOf st x := by
  unfold statusOf registrySetStatus
  rw [statusOfP_setStatusFirst_other _ x y s hxy]
  exact statusOfP_clear st.proposals x

theorem mapId_registrySetStatus (st : SysState) (y s : String) :
    (registrySetStatus st y s).proposals.map Proposal.id =
      st.proposals.map Proposal.id := by
  unfold registrySetStatus
  rw [mapId_setStatusFirst, mapId_clear]

theorem reportsFor_registrySetStatus (st : SysState) (x y s : String) :
    reportsFor (registrySetStatus st y s) x = reportsFor st x := rfl

theorem mapId_stepAsSuccess (env : ExecEnv) (st : SysState) (i : String) :
    (stepAsSuccess env st i).proposals.map Proposal.id =
      st.proposals.map Proposal.id := by
  unfold stepAsSuccess
  rw [mapId_registrySetStatus, execCodeChange_mapId]

theorem statusOf_stepAsSuccess_self (env : ExecEnv) (st : SysState) (i : String)
    (hmem : i ∈ st.proposals.map Proposal.id) :
    statusOf (stepAsSuccess env st i) i = some "executed" := by
  unfold stepAsSuccess
  exact statusOf_registrySetStatus_self _ i _ (by rw [execCodeChange_mapId]; exact hmem)

theorem statusOf_stepAsSuccess_other (env : ExecEnv) (st : SysState) (i x : String)
    (hx : x ≠ i) :
    statusOf (stepAsSuccess env st i) x = statusOf st x := by
  unfold stepAsSuccess
  rw [statusOf_registrySetStatus_other _ x i _ hx, execCodeChange_statusOf]

theorem reportsFor_stepAsSuccess (env : ExecEnv) (st : SysState) (i x : String)
    (hx : x ≠ i) :
    reportsFor (stepAsSuccess env st i) x = reportsFor st x := by
  unfold stepAsSuccess
  rw [reportsFor_registrySetStatus, execCodeChange_reportsFor _ _ _ _ hx]

theorem stepOk_eq_true {env : ExecEnv} {st : SysState} {i : String}
    (h : stepOk env st i = true) :
    ∃ rep, (execCodeChange st env i).result = .ok rep ∧ (rep.status == "success") = true := by
  unfold stepOk at h
  cases hr : (execCodeChange st env i).result with
  | ok rep => rw [hr] at h; exact ⟨rep, rfl, h⟩
  | error e => rw [hr] at h; cases h

theorem schedulerLoop_frame (envs : Nat → ExecEnv) :
    ∀ (ids : List String) (st : SysState) (cnt : Nat) (x : String),
      ids.contains x = false →
      statusOf (schedulerLoop envs ids st cnt).1 x = statusOf st x ∧
      reportsFor (schedulerLoop envs ids st cnt).1 x = reportsFor st x := by
  intro ids
  induction ids with
  | nil => intro st cnt x _; exact ⟨rfl, rfl⟩
  | cons i rest ih =>
      intro st cnt x hx
      have hxi : x ≠ i := by
        intro hEq
        rw [hEq] at hx
        simp [List.contains] at hx
      have hxr : rest.contains x = false := by
        simp [List.contains] at hx ⊢
        intro hc
        exact absurd (List.elem_eq_true_of_mem hc) (by simpa [List.contains] using hx.2)
      unfold schedulerLoop
      cases hr : (execCodeChange st (envs cnt) i).result with
      | ok rep =>
          cases hs : (rep.status == "success") with
          | true =>
              simp only [hs, if_true]
              have hrec := ih (registrySetStatus (execCodeChange st (envs cnt) i).state i "executed")
                (cnt + 1) x hxr
              constructor
              · rw [hrec.1, statusOf_registrySetStatus_other _ x i _ hxi,
                  execCodeChange_statusOf]
              · rw [hrec.2, reportsFor_registrySetStatus,
                  execCodeChange_reportsFor _ _ _ _ hxi]
          | false =>
              simp only [hs, Bool.false_eq_true, if_false]
              constructor
              · rw [statusOf_registrySetStatus_other _ x i _ hxi, execCodeChange_statusOf]
              · rw [reportsFor_registrySetStatus, execCodeChange_reportsFor _ _ _ _ hxi]
      | error e =>
          constructor
          · rw [statusOf_registrySetStatus_other _ x i _ hxi, execCodeChange_statusOf]
          · rw [reportsFor_registrySetStatus, execCodeChange_reportsFor _ _ _ _ hxi]

theorem contains_false_of_not_mem {l : List String} {a : String} (h : a ∉ l) :
    l.contains a = false := by
  cases hc : l.contains a with
  | false => rfl
  | true => exact absurd (List.mem_of_elem_eq_true hc) h

theorem idAt_mem : ∀ {ids : List String} {n : Nat}, n < ids.length → idAt ids n ∈ ids := by
  intro ids
  induction ids with
  | nil => intro n h; cases h
  | cons a l ih =>
      intro n h
      cases n with
      | zero => exact List.mem_cons_self a l
      | succ m => exact List.mem_cons_of_mem a (ih (Nat.lt_of_succ_lt_succ h))

theorem insertById_perm (p : Proposal) (l : List Proposal) :
    (insertById p l).Perm (p :: l) := by
  induction l with
  | nil => exact List.Perm.refl _
  | cons q qs ih =>
      unfold insertById
      split
      · exact (ih.cons q).trans (List.Perm.swap p q qs)
      · exact List.Perm.refl _

theorem sortById_perm (l : List Proposal) : (sortById l).Perm l := by
  induction l with
  | nil => exact List.Perm.refl _
  | cons p rest ih =>
      exact (insertById_perm p (sortById rest)).trans (ih.cons p)

theorem approvedIds_nodup (st : SysState)
    (hnd : (st.proposals.map Proposal.id).Nodup) : (approvedIds st).Nodup := by
  have hsub : ((st.proposals.filter (fun p => p.status == "approved")).map
      Proposal.id).Sublist (st.proposals.map Proposal.id) :=
    (List.filter_sublist st.proposals).map Proposal.id
  have hfil : ((st.proposals.filter (fun p => p.status == "approved")).map
      Proposal.id).Nodup := hnd.sublist hsub
  have hperm := (sortById_perm (st.proposals.filter
    (fun p => p.status == "approved"))).map Proposal.id
  exact hperm.symm.nodup hfil

theorem approvedIds_mem (st : SysState) :
    ∀ i ∈ approvedIds st, i ∈ st.proposals.map Proposal.id := by
  intro i hi
  unfold approvedIds approvedSorted at hi
  have hperm := (sortById_perm (st.proposals.filter
    (fun p => p.status == "approved"))).map Proposal.id
  have hi2 := hperm.mem_iff.mp hi
  exact ((List.filter_sublist st.proposals).map Proposal.id).subset hi2

theorem statusOf_eq_of_mem_nodup (st : SysState)
    (hnd : (st.proposals.map Proposal.id).Nodup) :
    ∀ p ∈ st.proposals, statusOf st p.id = some p.status := by
  unfold statusOf
  generalize st.proposals = ps at hnd ⊢
  induction ps with
  | nil => intro p hp; cases hp
  | cons q rest ih =>
      intro p hp
      unfold statusOfP
      simp only [List.find?]
      cases hq : (q.id == p.id) with
      | true =>
          have hqid : q.id = p.id := by simpa using hq
          cases hp with
          | head => rfl
          | tail _ hp2 =>
              exfalso
              have hqn : q.id ∉ rest.map Proposal.id := (List.nodup_cons.mp hnd).1
              exact hqn (hqid ▸ List.mem_map.mpr ⟨p, hp2, rfl⟩)
      | false =>
          cases hp with
          | head => simp at hq
          | tail _ hp2 => exact ih (List.nodup_cons.mp hnd).2 p hp2

theorem approved_status_of_mem_ids (st : SysState)
    (hnd : (st.proposals.map Proposal.id).Nodup) :
    ∀ x ∈ approvedIds st, statusOf st x = some "approved" := by
  intro x hx
  unfold approvedIds at hx
  obtain ⟨p, hp, hpx⟩ := List.mem_map.mp hx
  have hperm := sortById_perm (st.proposals.filter (fun p => p.status == "approved"))
  have hpf := hperm.mem_iff.mp hp
  obtain ⟨hpmem, hpst⟩ := List.mem_filter.mp hpf
  have := statusOf_eq_of_mem_nodup st hnd p hpmem
  rw [hpx] at this
  rw [this]
  have : p.status = "approved" := by simpa using hpst
  rw [this]

theorem schedulerLoop_cons_succ (envs : Nat → ExecEnv) (i : String) (rest : List String)
    (st : SysState) (cnt : Nat)
    (h : stepOk (envs cnt) st i = true) :
    schedulerLoop envs (i :: rest) st cnt =
      schedulerLoop envs rest (stepAsSuccess (envs cnt) st i) (cnt + 1) := by
  obtain ⟨rep, hr, hs⟩ := stepOk_eq_true h
  conv_lhs => rw [schedulerLoop]
  rw [hr]
  simp [hs, stepAsSuccess]

theorem schedulerLoop_cons_stop (envs : Nat → ExecEnv) (i : String) (rest : List String)
    (st : SysState) (cnt : Nat)
    (h : stepOk (envs cnt) st i = false) :
    (schedulerLoop envs (i :: rest) st cnt).1 =
      registrySetStatus (execCodeChange st (envs cnt) i).state i "failed" ∧
    (schedulerLoop envs (i :: rest) st cnt).2.status = "stopped_on_error" ∧
    (schedulerLoop envs (i :: rest) st cnt).2.executed = cnt ∧
    (schedulerLoop envs (i :: rest) st cnt).2.failed = 1 ∧
    (schedulerLoop envs (i :: rest) st cnt).2.failedDds = some i := by
  unfold stepOk at h
  unfold schedulerLoop
  cases hr : (execCodeChange st (envs cnt) i).result with
  | ok rep =>
      rw [hr] at h
      have h2 : (rep.status == "success") = false := h
      simp [h2]
  | error e => simp

theorem schedulerLoop_spec (envs : Nat → ExecEnv) :
    ∀ (k : Nat) (ids : List String) (st : SysState) (cnt : Nat),
      ids.Nodup →
      (∀ i ∈ ids, i ∈ st.proposals.map Proposal.id) →
      k < ids.length →
      (∀ n, n < k →
        stepOk (envs (cnt + n)) (loopStateBefore envs ids st cnt n) (idAt ids n) = true) →
      stepOk (envs (cnt + k)) (loopStateBefore envs ids st cnt k) (idAt ids k) = false →
      (schedulerLoop envs ids st cnt).2.status = "stopped_on_error" ∧
      (schedulerLoop envs ids st cnt).2.executed = cnt + k ∧
      (schedulerLoop envs ids st cnt).2.failed = 1 ∧
      (schedulerLoop envs ids st cnt).2.failedDds = some (idAt ids k) ∧
      (∀ n, n < k →
        statusOf (schedulerLoop envs ids st cnt).1 (idAt ids n) = some "executed") ∧
      statusOf (schedulerLoop envs ids st cnt).1 (idAt ids k) = some "failed" ∧
      (∀ j, k < j → j < ids.length →
        statusOf (schedulerLoop envs ids st cnt).1 (idAt ids j) = statusOf st (idAt ids j) ∧
        reportsFor (schedulerLoop envs ids st cnt).1 (idAt ids j) =
          reportsFor st (idAt ids j)) := by
  intro k
  induction k with
  | zero =>
      intro ids st cnt hnd hpres hk hsucc hfail
      cases ids with
      | nil => cases hk
      | cons i rest =>
          have hstop := schedulerLoop_cons_stop envs i rest st cnt
            (show stepOk (envs cnt) st i = false from hfail)
          refine ⟨hstop.2.1, hstop.2.2.1, hstop.2.2.2.1, hstop.2.2.2.2, ?_, ?_, ?_⟩
          · intro n hn; cases hn
          · rw [hstop.1]
            exact statusOf_registrySetStatus_self _ i _
              (by rw [execCodeChange_mapId]; exact hpres i (List.mem_cons_self i rest))
          · intro j hj1 hj2
            cases j with
            | zero => cases hj1
            | succ m =>
                have hm : m < rest.length := Nat.lt_of_succ_lt_succ hj2
                have hmem : idAt rest m ∈ rest := idAt_mem hm
                have hxi : idAt rest m ≠ i := by
                  intro hEq
                  exact (List.nodup_cons.mp hnd).1 (hEq ▸ hmem)
                have hidx : idAt (i :: rest) (m + 1) = idAt rest m := rfl
                constructor
                · rw [hstop.1, hidx, statusOf_registrySetStatus_other _ _ i _ hxi,
                    execCodeChange_statusOf]
                · rw [hstop.1, hidx, reportsFor_registrySetStatus,
                    execCodeChange_reportsFor _ _ _ _ hxi]
  | succ k ihk =>
      intro ids st cnt hnd hpres hk hsucc hfail
      cases ids with
      | nil => cases hk
      | cons i rest =>
          have h0 : stepOk (envs cnt) st i = true := hsucc 0 (Nat.succ_pos k)
          have hloopeq := schedulerLoop_cons_succ envs i rest st cnt h0
          have hnd2 := List.nodup_cons.mp hnd
          have hpres2 : ∀ x ∈ rest,
              x ∈ (stepAsSuccess (envs cnt) st i).proposals.map Proposal.id := by
            intro x hx
            rw [mapId_stepAsSuccess]
            exact hpres x (List.mem_cons_of_mem i hx)
          have hk2 : k < rest.length := Nat.lt_of_succ_lt_succ hk
          have hsucc2 : ∀ n, n < k →
              stepOk (envs (cnt + 1 + n))
                (loopStateBefore envs rest (stepAsSuccess (envs cnt) st i) (cnt + 1) n)
                (idAt rest n) = true := by
            intro n hn
            have hstep := hsucc (n + 1) (Nat.succ_lt_succ hn)
            rw [show cnt + (n + 1) = cnt + 1 + n by omega] at hstep
            exact hstep
          have hfail2 : stepOk (envs (cnt + 1 + k))
              (loopStateBefore envs rest (stepAsSuccess (envs cnt) st i) (cnt + 1) k)
              (idAt rest k) = false := by
            have hstep := hfail
            rw [show cnt + (k + 1) = cnt + 1 + k by omega] at hstep
            exact hstep
          have IH := ihk rest (stepAsSuccess (envs cnt) st i) (cnt + 1)
            hnd2.2 hpres2 hk2 hsucc2 hfail2
          rw [hloopeq]
          refine ⟨IH.1, ?_, IH.2.2.1, IH.2.2.2.1, ?_, IH.2.2.2.2.2.1, ?_⟩
          · rw [IH.2.1]; omega
          · intro n hn
            cases n with
            | zero =>
                have hframe := schedulerLoop_frame envs rest
                  (stepAsSuccess (envs cnt) st i) (cnt + 1) i
                  (contains_false_of_not_mem hnd2.1)
                show statusOf (schedulerLoop envs rest
                  (stepAsSuccess (envs cnt) st i) (cnt + 1)).1 i = some "executed"
                rw [hframe.1]
                exact statusOf_stepAsSuccess_self (envs cnt) st i
                  (hpres i (List.mem_cons_self i rest))
            | succ m => exact IH.2.2.2.2.1 m (Nat.lt_of_succ_lt_succ hn)
          · intro j hj1 hj2
            cases j with
            | zero => cases hj1
            | succ m =>
                have hm1 : k < m := Nat.lt_of_succ_lt_succ hj1
                have hm2 : m < rest.length := Nat.lt_of_succ_lt_succ hj2
                have hIHj := IH.2.2.2.2.2.2 m hm1 hm2
                have hmem : idAt rest m ∈ rest := idAt_mem hm2
                have hxi : idAt rest m ≠ i := by
                  intro hEq
                  exact hnd2.1 (hEq ▸ hmem)
                constructor
                · show statusOf (schedulerLoop envs rest
                      (stepAsSuccess (envs cnt) st i) (cnt + 1)).1 (idAt rest m) =
                    statusOf st (idAt rest m)
                  rw [hIHj.1]
                  exact statusOf_stepAsSuccess_other (envs cnt) st i _ hxi
                · show reportsFor (schedulerLoop envs rest
                      (stepAsSuccess (envs cnt) st i) (cnt + 1)).1 (idAt rest m) =
                    reportsFor st (idAt rest m)
                  rw [hIHj.2]
                  exact reportsFor_stepAsSuccess (envs cnt) st i _ hxi

/-- C3: over the approved proposals taken in ascending id order, if the
first k engine calls succeed and the call at index k fails (a typed
execution error or a report whose outcome is not success), then the
scheduler marks exactly those first k proposals executed, marks the k-th
proposal failed, attempts nothing after it (later approved proposals keep
status approved and their report logs unchanged, and every id outside the
approved list is untouched), and returns a summary naming the failing id
and the executed / failed counts so far. -/
theorem scheduler_stop_on_first_failure (st : SysState) (envs : Nat → ExecEnv) (k : Nat)
    (hnd : (st.proposals.map Proposal.id).Nodup)
    (hk : k < (approvedIds st).length)
    (hsucc : ∀ n, n < k →
      stepOk (envs n) (loopStateBefore envs (approvedIds st) st 0 n)
        (idAt (approvedIds st) n) = true)
    (hfail : stepOk (envs k) (loopStateBefore envs (approvedIds st) st 0 k)
      (idAt (approvedIds st) k) = false) :
    (schedulerRun envs st).2.status = "stopped_on_error" ∧
    (schedulerRun envs st).2.executed = k ∧
    (schedulerRun envs st).2.failed = 1 ∧
    (schedulerRun envs st).2.failedDds = some (idAt (approvedIds st) k) ∧
    (∀ n, n < k →
      statusOf (schedulerRun envs st).1 (idAt (approvedIds st) n) = some "executed") ∧
    statusOf (schedulerRun envs st).1 (idAt (approvedIds st) k) = some "failed" ∧
    (∀ j, k < j → j < (approvedIds st).length →
      statusOf (schedulerRun envs st).1 (idAt (approvedIds st) j) = some "approved" ∧
      reportsFor (schedulerRun envs st).1 (idAt (approvedIds st) j) =
        reportsFor st (idAt (approvedIds st) j)) ∧
    (∀ x, (approvedIds st).contains x = false →
      statusOf (schedulerRun envs st).1 x = statusOf st x) := by
  have hrun : schedulerRun envs st = schedulerLoop envs (approvedIds st) st 0 := by
    unfold schedulerRun
    cases happr : approvedSorted st with
    | nil =>
        exfalso
        have hlen : (approvedIds st).length = 0 := by
          unfold approvedIds
          rw [happr]
          rfl
        omega
    | cons a l => simp [approvedIds, happr]
  have hspec := schedulerLoop_spec envs k (approvedIds st) st 0
    (approvedIds_nodup st hnd) (approvedIds_mem st) hk
    (by intro n hn; have hs := hsucc n hn; simpa using hs)
    (by have hs := hfail; simpa using hs)
  rw [hrun]
  refine ⟨hspec.1, by rw [hspec.2.1]; omega, hspec.2.2.1, hspec.2.2.2.1,
    hspec.2.2.2.2.1, hspec.2.2.2.2.2.1, ?_, ?_⟩
  · intro j hj1 hj2
    have h7 := hspec.2.2.2.2.2.2 j hj1 hj2
    refine ⟨?_, h7.2⟩
    rw [h7.1]
    exact approved_status_of_mem_ids st hnd _ (idAt_mem hj2)
  · intro x hx
    exact (schedulerLoop_frame envs (approvedIds st) st 0 x hx).1

/-- Witness for C3: two approved proposals where the first succeeds and the
second fails structural validation; the run stops after the second,
reporting one executed and one failed. -/
theorem scheduler_stop_on_first_failure_witness :
    (schedulerRun schedEnvs schedSt).2.status = "stopped_on_error" ∧
    (schedulerRun schedEnvs schedSt).2.executed = 1 ∧
    (schedulerRun schedEnvs schedSt).2.failed = 1 ∧
    (schedulerRun schedEnvs schedSt).2.failedDds = some "DDS-2" ∧
    statusOf (schedulerRun schedEnvs schedSt).1 "DDS-1" = some "executed" ∧
    statusOf (schedulerRun schedEnvs schedSt).1 "DDS-2" = some "failed" := by
  have h := scheduler_stop_on_first_failure schedSt schedEnvs 1 (by decide) (by decide)
    (by
      intro n hn
      have hn0 : n = 0 := by omega
      subst hn0
      decide)
    (by decide)
  exact ⟨h.1, h.2.1, h.2.2.1, h.2.2.2.1, h.2.2.2.2.1 0 Nat.zero_lt_one,
    h.2.2.2.2.2.1⟩

end AiSystem
